import Mathlib

/-!
# Verification of the logdna-agent filesystem cache core

A shallow embedding of the watching cache in `common/fs/src/cache/mod.rs`,
the rule engine in `common/fs/src/rule.rs` and the event adapter surface in
`common/notify_stream/src/lib.rs`, together with proofs about the claims of
the specification.

Paths are modelled as lists of components, hash maps as association lists,
the slotted arena as an association list with a monotone key counter, and
the real filesystem consulted by `insert` as an abstract `Disk` value.
Recursive walks (`insert` over directory contents, `drop_entry`/`remove`
over subtrees) are unbounded in the source; they are embedded with an
explicit fuel argument, structurally recursive so that every function
evaluates inside the kernel.
-/

namespace LogdnaFs

/-- Absolute path, as its list of components (`[]` is the filesystem root). -/
abbrev Path := List String

/-- Stable arena key (`slotmap::DefaultKey`).  Keys are allocated from `1`;
`0` models `EntryKey::default()`, the null key that never denotes a live
entry. -/
abbrev EntryKey := Nat

/-! ## Association-list helpers (model of `std::collections::HashMap`) -/

/-- `HashMap::get`. -/
def alistGet [BEq α] (m : List (α × β)) (k : α) : Option β :=
  match m.find? (fun kv => kv.1 == k) with
  | some kv => some kv.2
  | none => none

/-- `HashMap::insert` (replaces an existing binding, else appends). -/
def alistSet [BEq α] (m : List (α × β)) (k : α) (v : β) : List (α × β) :=
  if (m.find? (fun kv => kv.1 == k)).isSome then
    m.map (fun kv => if kv.1 == k then (k, v) else kv)
  else m ++ [(k, v)]

/-- `HashMap::remove`. -/
def alistRemove [BEq α] (m : List (α × β)) (k : α) : List (α × β) :=
  m.filter (fun kv => !(kv.1 == k))

/-- `map.entry(k).or_insert_with(Vec::new).push(v)`. -/
def alistPush [BEq α] (m : List (α × List γ)) (k : α) (v : γ) : List (α × List γ) :=
  match alistGet m k with
  | some l => alistSet m k (l ++ [v])
  | none => m ++ [(k, [v])]

/-- `std::path::Path::parent`: `None` for the root, else the path without
its final component. -/
def pathParent (p : Path) : Option Path :=
  match p with
  | [] => none
  | _ => some p.dropLast

/-- `std::path::Path::file_name`: the last component. -/
def fileName (p : Path) : Option String :=
  p.getLast?

/-! ## Rule engine (`common/fs/src/rule.rs`) -/

/-- A boxed `dyn Rule`: the only capability used is `matches(path) -> bool`. -/
abbrev Matcher := Path → Bool

/-- `rule::Status`. -/
inductive Status where
  | NotIncluded
  | Excluded
  | Ok
  deriving DecidableEq, BEq

/-- `rule::Rules`: ordered inclusion and exclusion rule lists. -/
structure Rules where
  inclusion : List Matcher
  exclusion : List Matcher

/-- `Rules::new`. -/
def Rules.new : Rules := ⟨[], []⟩

/-- `Rules::add_inclusion`. -/
def Rules.addInclusion (r : Rules) (m : Matcher) : Rules :=
  { r with inclusion := r.inclusion ++ [m] }

/-- `Rules::add_exclusion`. -/
def Rules.addExclusion (r : Rules) (m : Matcher) : Rules :=
  { r with exclusion := r.exclusion ++ [m] }

/-- `Rules::included`: `Ok` as soon as one inclusion rule matches, else
`NotIncluded`. -/
def Rules.included (r : Rules) (p : Path) : Status :=
  if r.inclusion.any (fun m => m p) then Status.Ok else Status.NotIncluded

/-- `Rules::excluded`: `Excluded` as soon as one exclusion rule matches,
else `Ok`. -/
def Rules.excluded (r : Rules) (p : Path) : Status :=
  if r.exclusion.any (fun m => m p) then Status.Excluded else Status.Ok

/-- `Rules::passes`: `NotIncluded` when nothing includes the value, else the
exclusion verdict. -/
def Rules.passes (r : Rules) (p : Path) : Status :=
  if r.included p = Status.NotIncluded then Status.NotIncluded
  else r.excluded p

/-! ## Semantic events (`cache/event.rs`)

Modelled from the spec: the file `cache/event.rs` is not part of the
extracted sources; the spec lists the four semantic event variants
`Initialize`, `New`, `Write`, `Delete`, each carrying the entry key. -/

/-- `cache::event::Event`. -/
inductive Event where
  | Initialize (k : EntryKey)
  | New (k : EntryKey)
  | Write (k : EntryKey)
  | Delete (k : EntryKey)
  deriving DecidableEq, BEq

/-- The key carried by a semantic event. -/
def Event.key : Event → EntryKey
  | .Initialize k => k
  | .New k => k
  | .Write k => k
  | .Delete k => k

/-- `true` exactly on `New` events. -/
def isNewEv : Event → Bool
  | .New _ => true
  | _ => false

/-- `true` exactly on `Initialize` events. -/
def isInitEv : Event → Bool
  | .Initialize _ => true
  | _ => false

/-! ## Raw watch events (`common/notify_stream/src/lib.rs`) -/

/-- `notify_stream::Error`: the error kinds a raw `Error` event can carry. -/
inductive NotifyError where
  | Generic (msg : String)
  | Io
  | PathNotFound
  | WatchNotFound
  deriving DecidableEq, BEq

/-- `notify_stream::Event`, the debounced raw event stream consumed by the
reconciler. -/
inductive WatchEvent where
  | Remove (p : Path)
  | Create (p : Path)
  | Write (p : Path)
  | Rename (f t : Path)
  | Rescan
  | Error (e : NotifyError) (p : Option Path)

/-! ## Cache errors (`cache::Error` in `cache/mod.rs`) -/

/-- `cache::Error` (payloads reduced to what the logic inspects). -/
inductive FsError where
  | Watch (p : Path)
  | WatchEvent (p : Path)
  | WatchOverflow
  | Existing
  | Lookup
  | ParentLookup
  | ParentNotValid
  | PathNotValid (p : Path)
  | DirectoryListNotValid (p : Path)
  | InsertRecursively
  | File
  deriving DecidableEq, BEq

/-! ## Entries (`cache/entry.rs`)

Modelled from the spec: `cache/entry.rs` is not part of the extracted
sources.  The spec's data model gives the three variants with their
attributes: Dir has `name`, optional `parent`, `children` and `wd`; File has
`name`, `parent` (an entry key), `wd` and an opaque tail-state (omitted
here); Symlink has `name`, `parent`, `link`, `wd` and a local `rules` scope.
The accessors below are the ones `cache/mod.rs` uses. -/

/-- `cache::entry::Entry`. -/
inductive Entry where
  | Dir (name : String) (parent : Option EntryKey)
        (children : List (String × EntryKey)) (wd : Path)
  | File (name : String) (parent : EntryKey) (wd : Path)
  | Symlink (name : String) (parent : EntryKey) (link : Path) (wd : Path)
            (rules : Rules)

/-- `Entry::name`. -/
def Entry.name : Entry → String
  | .Dir n _ _ _ => n
  | .File n _ _ => n
  | .Symlink n _ _ _ _ => n

/-- `Entry::path` (the `wd` attribute). -/
def Entry.path : Entry → Path
  | .Dir _ _ _ w => w
  | .File _ _ w => w
  | .Symlink _ _ _ w _ => w

/-- `Entry::parent`, as used by `process_rename` and `remove`: `Dir` yields
its optional parent, `File`/`Symlink` wrap their key in `Some`. -/
def Entry.parentOpt : Entry → Option EntryKey
  | .Dir _ p _ _ => p
  | .File _ p _ => some p
  | .Symlink _ p _ _ _ => some p

/-- `Entry::children_mut` viewed as a read: `Some` children for a `Dir`,
`None` otherwise. -/
def Entry.childrenOpt : Entry → Option (List (String × EntryKey))
  | .Dir _ _ c _ => some c
  | _ => none

/-- The values of a `Dir`'s children map (`children.values()`); empty for
the other variants. -/
def Entry.childValues : Entry → List EntryKey
  | .Dir _ _ c _ => c.map (fun kv => kv.2)
  | _ => []

/-- `Entry::set_name`. -/
def Entry.setName : Entry → String → Entry
  | .Dir _ p c w, n => .Dir n p c w
  | .File _ p w, n => .File n p w
  | .Symlink _ p l w r, n => .Symlink n p l w r

/-- `Entry::set_path`. -/
def Entry.setPath : Entry → Path → Entry
  | .Dir n p c _, w => .Dir n p c w
  | .File n p _, w => .File n p w
  | .Symlink n p l _ r, w => .Symlink n p l w r

/-- `Entry::set_parent`. -/
def Entry.setParent : Entry → EntryKey → Entry
  | .Dir n _ c w, p => .Dir n (some p) c w
  | .File n _ w, p => .File n p w
  | .Symlink n _ l w r, p => .Symlink n p l w r

/-- Replace a `Dir`'s children map (identity on other variants). -/
def Entry.setChildren : Entry → List (String × EntryKey) → Entry
  | .Dir n p _ w, c => .Dir n p c w
  | e, _ => e

/-! ## Entry store (`slotmap::SlotMap`) -/

/-- The slotted arena: a monotone key counter plus the live bindings.
Keys start at `1`; `0` is the never-allocated null key. -/
structure EntryMap where
  nextKey : Nat
  items : List (Nat × Entry)

/-- `SlotMap::get`. -/
def EntryMap.get (m : EntryMap) (k : EntryKey) : Option Entry :=
  alistGet m.items k

/-- `SlotMap::insert`: returns the fresh key and the extended map. -/
def EntryMap.insertE (m : EntryMap) (e : Entry) : EntryKey × EntryMap :=
  (m.nextKey, ⟨m.nextKey + 1, m.items ++ [(m.nextKey, e)]⟩)

/-- Write through a key obtained by `get_mut`. -/
def EntryMap.set (m : EntryMap) (k : EntryKey) (e : Entry) : EntryMap :=
  ⟨m.nextKey, alistSet m.items k e⟩

/-! ## The abstract on-disk filesystem

The cache consults the real filesystem through `std::fs` during `insert`
and `is_initial_dir_target`.  Modelled from the spec: a finite map from
paths to metadata; `read_dir` yields the stored child paths, symlink
chains are resolved with a bound derived from the disk size. -/

/-- What a path names on disk. `MFile`'s flag tells whether opening the
file's tail-state (`TailedFile::new`) succeeds. -/
inductive FileMeta where
  | MDir (contents : List Path)
  | MFile (openOk : Bool)
  | MSymlink (target : Path)

/-- The abstract disk. -/
structure Disk where
  nodes : List (Path × FileMeta)

/-- Raw lookup (no symlink traversal), as `fs::symlink_metadata` would. -/
def Disk.get (d : Disk) (p : Path) : Option FileMeta :=
  alistGet d.nodes p

/-- `Path::exists` as used in `insert`'s guard (see the note on the guard:
only the conjunction with `read_link` failing is ever observed, so plain
presence is an equivalent model). -/
def Disk.pathExists (d : Disk) (p : Path) : Bool :=
  (d.get p).isSome

/-- `Path::read_link`: the target when the path is a symlink. -/
def Disk.readLink (d : Disk) (p : Path) : Option Path :=
  match d.get p with
  | some (.MSymlink t) => some t
  | _ => none

/-- Symlink-chasing resolution with explicit fuel. -/
def Disk.resolve : Nat → Disk → Path → Option FileMeta
  | 0, _, _ => none
  | n + 1, d, p =>
    match d.get p with
    | some (.MSymlink t) => Disk.resolve n d t
    | m => m

/-- Resolution with enough fuel to cross the whole disk (a longer chain is
a cycle and fails, as the OS errors with `ELOOP`). -/
def Disk.resolveTop (d : Disk) (p : Path) : Option FileMeta :=
  Disk.resolve (d.nodes.length + 1) d p

/-- `fs::metadata(path).is_dir()`; `none` models the metadata error. -/
def Disk.metadataIsDir (d : Disk) (p : Path) : Option Bool :=
  match d.resolveTop p with
  | some (.MDir _) => some true
  | some _ => some false
  | none => none

/-- `fs::read_dir`; `none` models the error case. -/
def Disk.readDir (d : Disk) (p : Path) : Option (List Path) :=
  match d.resolveTop p with
  | some (.MDir cs) => some cs
  | _ => none

/-- Whether `TailedFile::new(path)` succeeds. -/
def Disk.openFileOk (d : Disk) (p : Path) : Bool :=
  match d.resolveTop p with
  | some (.MFile ok) => ok
  | _ => false

/-! ## The cache state (`struct FileSystem`) -/

/-- The fields of `cache::FileSystem`.  The kernel watcher is modelled as
the set (list) of watched paths; `entries` drops the `Rc<RefCell<..>>`
wrapper. -/
structure FileSystemS where
  watcher : List Path
  entries : EntryMap
  root : EntryKey
  symlinks : List (Path × List EntryKey)
  watch_descriptors : List (Path × List EntryKey)
  master_rules : Rules
  initial_dirs : List Path
  initial_dir_rules : Rules
  initial_events : List Event

/-- `Watcher::watch` (modelled as always succeeding; none of the claims
concerns kernel-watch failures). -/
def watcherWatch (s : FileSystemS) (p : Path) : FileSystemS :=
  if s.watcher.contains p then s else { s with watcher := s.watcher ++ [p] }

/-- `Watcher::unwatch_if_exists`. -/
def watcherUnwatch (s : FileSystemS) (p : Path) : FileSystemS :=
  { s with watcher := s.watcher.filter (fun q => !(q == p)) }

/-- `FileSystem::lookup`: first key indexed under the path.  (The source
indexes `entries[0]` and would panic on an empty vector; empty vectors are
removed by `unregister`, `head?` models the defined behaviour.) -/
def lookup (s : FileSystemS) (p : Path) : Option EntryKey :=
  (alistGet s.watch_descriptors p).bind List.head?

/-- `FileSystem::get_first_entry`. -/
def getFirstEntry (s : FileSystemS) (wd : Path) : Except FsError EntryKey :=
  match alistGet s.watch_descriptors wd with
  | none => .error (.WatchEvent wd)
  | some ks =>
    match ks.head? with
    | some k => .ok k
    | none => .error (.WatchEvent wd)

/-- `FileSystem::is_symlink_target`: some tracked symlink's local rules
pass the path and the master rules include it.  (The source panics on a
non-symlink entry in the symlink index; such entries are skipped here.) -/
def isSymlinkTarget (s : FileSystemS) (p : Path) : Bool :=
  s.symlinks.any (fun kv =>
    kv.2.any (fun k =>
      match s.entries.get k with
      | some (.Symlink _ _ _ _ rules) =>
        rules.passes p == Status.Ok && s.master_rules.included p == Status.Ok
      | _ => false))

/-- `FileSystem::is_initial_dir_target`. -/
def isInitialDirTarget (d : Disk) (s : FileSystemS) (p : Path) : Bool :=
  if !(s.initial_dir_rules.passes p == Status.Ok) then false
  else if !(s.master_rules.passes p == Status.Ok) then
    match d.metadataIsDir p with
    | some b => b
    | none => false
  else true

/-- `FileSystem::passes`. -/
def passes (d : Disk) (s : FileSystemS) (p : Path) : Bool :=
  isInitialDirTarget d s p || isSymlinkTarget s p

/-- `FileSystem::entry_path_passes`. -/
def entryPathPasses (d : Disk) (s : FileSystemS) (k : EntryKey) : Bool :=
  match s.entries.get k with
  | some e => passes d s e.path
  | none => false

/-- `FileSystem::register`. -/
def register (s : FileSystemS) (k : EntryKey) : FileSystemS × Except FsError Unit :=
  match s.entries.get k with
  | none => (s, .error .Lookup)
  | some e =>
    let p := e.path
    let s := { s with watch_descriptors := alistPush s.watch_descriptors p k }
    match e with
    | .Symlink _ _ link _ _ =>
      ({ s with symlinks := alistPush s.symlinks link k }, .ok ())
    | _ => (s, .ok ())

/-- `FileSystem::unregister`: removes the key from the watch-descriptor
index (unwatching when the list empties) and, for symlinks, from the
symlink index.  Missing entries or untracked descriptors log and return
early. -/
def unregister (s : FileSystemS) (k : EntryKey) : FileSystemS :=
  match s.entries.get k with
  | none => s
  | some e =>
    let p := e.path
    match alistGet s.watch_descriptors p with
    | none => s
    | some ks =>
      let ks := ks.filter (fun o => !(o == k))
      let s :=
        if ks.isEmpty then
          watcherUnwatch { s with watch_descriptors := alistRemove s.watch_descriptors p } p
        else { s with watch_descriptors := alistSet s.watch_descriptors p ks }
      match e with
      | .Symlink _ _ link _ _ =>
        match alistGet s.symlinks link with
        | none => s
        | some sks =>
          let sks := sks.filter (fun o => !(o == k))
          if sks.isEmpty then { s with symlinks := alistRemove s.symlinks link }
          else { s with symlinks := alistSet s.symlinks link sks }
      | _ => s

/-- `FileSystem::register_as_child`: arena-insert the entry, register it,
then attach it to the parent found through the watch-descriptor index.
Note that the source does not set the child's `parent` field here. -/
def registerAsChild (s : FileSystemS) (e : Entry) : FileSystemS × Except FsError EntryKey :=
  let component := e.name
  let parentPath := pathParent e.path
  let km := s.entries.insertE e
  let newKey := km.1
  let s := { s with entries := km.2 }
  match register s newKey with
  | (s, .error err) => (s, .error err)
  | (s, .ok _) =>
    match parentPath with
    | none => (s, .ok newKey)
    | some pp =>
      match alistGet s.watch_descriptors pp with
      | none => (s, .ok newKey)
      | some pks =>
        match pks.head? with
        | none => (s, .error .ParentLookup)
        | some parentKey =>
          match s.entries.get parentKey with
          | none => (s, .error .ParentLookup)
          | some pe =>
            match pe.childrenOpt with
            | none => (s, .error .ParentNotValid)
            | some ch =>
              match alistGet ch component with
              | none =>
                ({ s with entries :=
                    s.entries.set parentKey (pe.setChildren (alistSet ch component newKey)) },
                 .ok newKey)
              | some _ => (s, .error .Existing)

/-- `FileSystem::process_modify`: emit one `Write` per key indexed under
the descriptor, untracked descriptors error. -/
def processModify (s : FileSystemS) (p : Path) :
    FileSystemS × List Event × Except FsError Unit :=
  match alistGet s.watch_descriptors p with
  | some ks => (s, ks.map Event.Write, .ok ())
  | none => (s, [], .error (.WatchEvent p))

/-! ## Insertion (`FileSystem::insert`)

`insert` recurses into directory contents; the recursion is driven by a
fuel argument (structural, so every run evaluates in the kernel).  A sum
argument distinguishes inserting one path from the source's loop over the
children of a directory, whose per-child errors are swallowed. -/

/-- The two call shapes of the insertion walk. -/
inductive InsCall where
  | ione (p : Path)
  | imany (ps : List Path)

/-- `FileSystem::insert` (and its loop over directory children).
Out of fuel returns the state unchanged with `Ok(None)`. -/
def insertGo : Nat → Disk → FileSystemS → InsCall →
    FileSystemS × List Event × Except FsError (Option EntryKey)
  | 0, _, s, _ => (s, [], .ok none)
  | _ + 1, _, s, .imany [] => (s, [], .ok none)
  | n + 1, d, s, .imany (p :: ps) =>
    let r1 := insertGo n d s (.ione p)
    let r2 := insertGo n d r1.1 (.imany ps)
    (r2.1, r1.2.1 ++ r2.2.1, r2.2.2)
  | n + 1, d, s, .ione p =>
    if !(passes d s p) then (s, [], .ok none)
    else
      let linkPath := d.readLink p
      if !(d.pathExists p) && linkPath.isNone then (s, [], .ok none)
      else
        match d.metadataIsDir p with
        | none => (s, [], .error (.PathNotValid p))
        | some true =>
          match d.readDir p with
          | none => (s, [], .error (.DirectoryListNotValid p))
          | some contents =>
            match fileName p with
            | none => (s, [], .error (.PathNotValid p))
            | some nm =>
              let newEntry := Entry.Dir nm none [] p
              let s := watcherWatch s p
              match registerAsChild s newEntry with
              | (s, .error err) => (s, [], .error err)
              | (s, .ok newKey) =>
                let r := insertGo n d s (.imany contents)
                (r.1, Event.New newKey :: r.2.1, .ok (some newKey))
        | some false =>
          match linkPath with
          | some target =>
            match fileName p with
            | none => (s, [], .error (.PathNotValid p))
            | some nm =>
              let newEntry := Entry.Symlink nm 0 target p Rules.new
              let s := watcherWatch s p
              match registerAsChild s newEntry with
              | (s, .error err) => (s, [], .error err)
              | (s, .ok k) => (s, [Event.New k], .ok (some k))
          | none =>
            match fileName p with
            | none => (s, [], .error (.PathNotValid p))
            | some nm =>
              if d.openFileOk p then
                let newEntry := Entry.File nm 0 p
                let s := watcherWatch s p
                match registerAsChild s newEntry with
                | (s, .error err) => (s, [], .error err)
                | (s, .ok k) => (s, [Event.New k], .ok (some k))
              else (s, [], .error .File)

/-- `FileSystem::insert` proper. -/
def insertP (n : Nat) (d : Disk) (s : FileSystemS) (p : Path) :
    FileSystemS × List Event × Except FsError (Option EntryKey) :=
  insertGo n d s (.ione p)

/-- `FileSystem::process_create`: `insert` with the key discarded. -/
def processCreate (n : Nat) (d : Disk) (s : FileSystemS) (p : Path) :
    FileSystemS × List Event × Except FsError Unit :=
  let r := insertP n d s p
  (r.1, r.2.1, r.2.2.map (fun _ => ()))

/-! ## Removal (`FileSystem::drop_entry` / `FileSystem::remove`)

`drop_entry` recurses into a `Dir`'s children and, for a symlink whose
target no longer passes, calls `remove` on the target, which calls back
into `drop_entry`.  A sum argument covers the four call shapes; fuel makes
the walk structural. -/

/-- The call shapes of the removal walk: drop one entry, drop a list of
children, remove a list of symlink targets, `remove` one path. -/
inductive DropCall where
  | one (k : EntryKey)
  | many (ks : List EntryKey)
  | links (ps : List Path)
  | rem (p : Path)

/-- The symlink-target paths `drop_entry` schedules for removal: the
entry's `link` when (after unregistering) it no longer passes. -/
def dropLinksOf (d : Disk) (s : FileSystemS) (e : Entry) : List Path :=
  match e with
  | .Symlink _ _ link _ _ => if !(passes d s link) then [link] else []
  | _ => []

/-- The `Delete` events `drop_entry` pushes for the entry itself: none for
a `Dir`, `Delete(key)` for `File` and `Symlink`. -/
def dropSelfEvents (k : EntryKey) (e : Entry) : List Event :=
  match e with
  | .Dir _ _ _ _ => []
  | _ => [Event.Delete k]

/-- `FileSystem::remove`'s detach-from-parent phase: look up the parent by
path and delete the leaf-component binding from its children. -/
def removeDetach (s : FileSystemS) (p : Path) : Except FsError FileSystemS :=
  match (pathParent p).bind (fun pp => lookup s pp) with
  | none => .ok s
  | some pk =>
    match fileName p with
    | none => .error (.PathNotValid p)
    | some nm =>
      match s.entries.get pk with
      | none => .ok s
      | some pe =>
        match pe.childrenOpt with
        | none => .error .ParentNotValid
        | some ch =>
          .ok { s with entries := s.entries.set pk (pe.setChildren (alistRemove ch nm)) }

/-- `FileSystem::drop_entry` and `FileSystem::remove` (mutually recursive
in the source), with their loops over children and scheduled targets.
`.one` is `drop_entry`, `.rem` is `remove`.  Out of fuel returns the state
unchanged. -/
def dropGo : Nat → Disk → FileSystemS → DropCall →
    FileSystemS × List Event × Except FsError Unit
  | 0, _, s, _ => (s, [], .ok ())
  | n + 1, d, s, .one k =>
    let s1 := unregister s k
    match s1.entries.get k with
    | none => (s1, [], .ok ())
    | some e =>
      let r1 := dropGo n d s1 (.many e.childValues)
      let r2 := dropGo n d r1.1 (.links (dropLinksOf d s1 e))
      (r2.1, dropSelfEvents k e ++ r1.2.1 ++ r2.2.1, .ok ())
  | _ + 1, _, s, .many [] => (s, [], .ok ())
  | n + 1, d, s, .many (k :: ks) =>
    let r1 := dropGo n d s (.one k)
    let r2 := dropGo n d r1.1 (.many ks)
    (r2.1, r1.2.1 ++ r2.2.1, .ok ())
  | _ + 1, _, s, .links [] => (s, [], .ok ())
  | n + 1, d, s, .links (p :: ps) =>
    let r1 := dropGo n d s (.rem p)
    let r2 := dropGo n d r1.1 (.links ps)
    (r2.1, r1.2.1 ++ r2.2.1, .ok ())
  | n + 1, d, s, .rem p =>
    match lookup s p with
    | none => (s, [], .error .Lookup)
    | some k =>
      match removeDetach s p with
      | .error err => (s, [], .error err)
      | .ok s2 =>
        let r := dropGo n d s2 (.one k)
        (r.1, r.2.1, .ok ())

/-- `FileSystem::remove` proper. -/
def removeP (n : Nat) (d : Disk) (s : FileSystemS) (p : Path) :
    FileSystemS × List Event × Except FsError Unit :=
  dropGo n d s (.rem p)

/-- `FileSystem::process_delete`: look up the raw path's first entry; its
stored path is removed unless it equals one of the configured initial
roots, which are suppressed. -/
def processDelete (n : Nat) (d : Disk) (s : FileSystemS) (p : Path) :
    FileSystemS × List Event × Except FsError Unit :=
  match getFirstEntry s p with
  | .error e => (s, [], .error e)
  | .ok k =>
    match s.entries.get k with
    | none => (s, [], .error .Lookup)
    | some e =>
      if s.initial_dirs.any (fun dir => dir == e.path) then (s, [], .ok ())
      else removeP n d s e.path

/-! ## Rename (`FileSystem::process_rename`) -/

/-- `FileSystem::process_rename`.  When the source path has no entry this
falls through to `insert(to)`.  Otherwise: detach from the old parent
through the entry's `parent` field, rename and re-path the entry, replace
the watch-descriptor mapping *of the destination*, and attach to the new
parent when the destination's parent path is indexed. -/
def processRename (n : Nat) (d : Disk) (s : FileSystemS) (fromPath toPath : Path) :
    FileSystemS × List Event × Except FsError Unit :=
  let newParent := (pathParent toPath).bind (fun pp => lookup s pp)
  match lookup s fromPath with
  | none =>
    let r := insertP n d s toPath
    (r.1, r.2.1, r.2.2.map (fun _ => ()))
  | some k =>
    match s.entries.get k with
    | none => (s, [], .error .Lookup)
    | some e =>
      match fileName toPath with
      | none => (s, [], .error (.PathNotValid toPath))
      | some newName =>
        let oldName := e.name
        let detached : Except FsError FileSystemS :=
          match e.parentOpt with
          | none => .ok s
          | some pk =>
            match s.entries.get pk with
            | none => .error .ParentLookup
            | some pe =>
              match pe.childrenOpt with
              | none => .error .ParentNotValid
              | some ch =>
                .ok { s with entries := s.entries.set pk (pe.setChildren (alistRemove ch oldName)) }
        match detached with
        | .error err => (s, [], .error err)
        | .ok s =>
          match s.entries.get k with
          | none => (s, [], .error .Lookup)
          | some e2 =>
            let e2 := (e2.setName newName).setPath toPath
            let s := { s with entries := s.entries.set k e2 }
            let s := { s with watch_descriptors := alistRemove s.watch_descriptors toPath }
            let s := { s with watch_descriptors := alistPush s.watch_descriptors toPath k }
            match newParent with
            | none => (s, [], .ok ())
            | some np =>
              let e3 := e2.setParent np
              let s := { s with entries := s.entries.set k e3 }
              match s.entries.get np with
              | none => (s, [], .error .ParentLookup)
              | some pe =>
                match pe.childrenOpt with
                | none => (s, [], .error .ParentNotValid)
                | some ch =>
                  ({ s with entries := s.entries.set np (pe.setChildren (alistSet ch newName k)) },
                   [], .ok ())

/-! ## The dispatcher (`FileSystem::process`) -/

/-- The body of `FileSystem::process` before its error handling: the match
over the raw event.  `Rescan` is covered by the source's catch-all TODO
arm; `Error` events log and return `Ok`. -/
def processInner (n : Nat) (d : Disk) (s : FileSystemS) (we : WatchEvent) :
    FileSystemS × List Event × Except FsError Unit :=
  match we with
  | .Create p => processCreate n d s p
  | .Write p => processModify s p
  | .Remove p => processDelete n d s p
  | .Rename f t =>
    let fromOk :=
      match getFirstEntry s f with
      | .ok k => entryPathPasses d s k
      | .error _ => false
    let toOk := passes d s t
    if toOk && fromOk then processRename n d s f t
    else if toOk then processCreate n d s t
    else if fromOk then processDelete n d s f
    else (s, [], .ok ())
  | .Error _ _ => (s, [], .ok ())
  | .Rescan => (s, [], .ok ())

/-- The error handling at the end of `process`: only a `WatchOverflow`
result escalates to a process-fatal panic; everything else is logged. -/
def finishP (r : FileSystemS × List Event × Except FsError Unit) :
    FileSystemS × List Event × Bool :=
  (r.1, r.2.1,
    match r.2.2 with
    | .error .WatchOverflow => true
    | _ => false)

/-- `FileSystem::process`: the dispatch plus its error handling.  The
boolean is `true` exactly when handling the event is process-fatal. -/
def process (n : Nat) (d : Disk) (s : FileSystemS) (we : WatchEvent) :
    FileSystemS × List Event × Bool :=
  finishP (processInner n d s we)

/-! ## Construction (`FileSystem::new`) and the event stream -/

/-- `append_rules`: one inclusion for everything strictly inside the path
(the glob `path/**`) plus one exact inclusion per prefix of the path down
to the filesystem root (the source's `pop` loop).

Modelled from the spec for the glob semantics: `R/**` admits any path
within `R`; the exact patterns admit `R` itself and every ancestor. -/
def matchRecursive (base : Path) : Matcher :=
  fun q => base.isPrefixOf q && !(q == base)

/-- Exact-path glob pattern. -/
def matchExact (base : Path) : Matcher :=
  fun q => q == base

/-- `append_rules` in `cache/mod.rs`. -/
def appendRules (r : Rules) (p : Path) : Rules :=
  let r := r.addInclusion (matchRecursive p)
  ((List.range (p.length + 1)).reverse.map (fun n => matchExact (p.take n))).foldl
    Rules.addInclusion r

/-- The ancestor climb in `new`: pop components until an existing path is
found. -/
def climb : Nat → Disk → Path → Path
  | 0, _, p => p
  | n + 1, d, p => if d.pathExists p then p else climb n d p.dropLast

/-- `new`'s loop over the initial dirs: climb to an existing ancestor and
`insert` it, accumulating the bootstrap events (per-dir errors are logged
and ignored). -/
def bootstrapDirs (n : Nat) (d : Disk) : FileSystemS → List Path → FileSystemS × List Event
  | s, [] => (s, [])
  | s, dir :: rest =>
    let p := climb n d dir
    let r := insertP n d s p
    let r2 := bootstrapDirs n d r.1 rest
    (r2.1, r.2.1 ++ r2.2)

/-- The state `new` builds before bootstrapping, and the bootstrap events.
(The source panics when an initial dir is not a directory; construction is
modelled for the remaining executions.) -/
def bootstrapRun (n : Nat) (d : Disk) (dirs : List Path) (rules : Rules) :
    FileSystemS × List Event :=
  let initialDirRules := dirs.foldl appendRules Rules.new
  let s0 : FileSystemS :=
    { watcher := []
      entries := ⟨1, []⟩
      root := 0
      symlinks := []
      watch_descriptors := []
      master_rules := rules
      initial_dirs := dirs
      initial_dir_rules := initialDirRules
      initial_events := [] }
  bootstrapDirs n d s0 dirs

/-- `FileSystem::new`: bootstrap, then buffer every bootstrap `New` as an
`Initialize` (the source panics on any other variant; `filterMap` models
the rewrite, and the bootstrap is proved to emit only `New`). -/
def FileSystem.new (n : Nat) (d : Disk) (dirs : List Path) (rules : Rules) : FileSystemS :=
  let r := bootstrapRun n d dirs rules
  { r.1 with
    initial_events := r.2.filterMap (fun e =>
      match e with
      | .New k => some (.Initialize k)
      | _ => none) }

/-- Feeding a list of raw events through `process`, threading the state and
concatenating the emitted semantic events in order. -/
def runEvents (n : Nat) (d : Disk) : FileSystemS → List WatchEvent → FileSystemS × List Event
  | s, [] => (s, [])
  | s, w :: ws =>
    let r := process n d s w
    let rest := runEvents n d r.1 ws
    (rest.1, r.2.1 ++ rest.2)

/-- `FileSystem::stream_events` over a finite schedule of raw events: the
buffered initial events are drained first, then each live raw event's
semantic events in order. -/
def streamEvents (n : Nat) (d : Disk) (s : FileSystemS) (raws : List WatchEvent) : List Event :=
  s.initial_events ++ (runEvents n d { s with initial_events := [] } raws).2

/-! ## Specification-side definitions

These re-state parts of the spec's vocabulary (the claims' `from_ok` /
`to_ok`, the universal invariants, the set of entries dropped by a
removal) for comparison with the source functions above. -/

/-- The claims' `from_ok`: the source path is indexed and its first entry's
path passes the rules. -/
def fromOkSpec (d : Disk) (s : FileSystemS) (f : Path) : Bool :=
  match alistGet s.watch_descriptors f with
  | some (k :: _) => entryPathPasses d s k
  | _ => false

/-- The claims' `to_ok`: the destination path passes the rules. -/
def toOkSpec (d : Disk) (s : FileSystemS) (t : Path) : Bool :=
  passes d s t

/-- Spec invariant 2/4 as a decidable check: every child binding
`(name, key)` of every `Dir` entry resolves to a live entry whose `parent`
is the dir's key and whose `name` is the binding's name. -/
def inv2holds (s : FileSystemS) : Bool :=
  s.entries.items.all (fun ke =>
    match ke.2 with
    | .Dir _ _ ch _ =>
      ch.all (fun nc =>
        match s.entries.get nc.2 with
        | some ce => ce.parentOpt == some ke.1 && ce.name == nc.1
        | none => false)
    | _ => true)

/-- Spec invariant 1 as a decidable check: every key indexed under a path
resolves to a live entry whose stored path equals that path. -/
def inv3holds (s : FileSystemS) : Bool :=
  s.watch_descriptors.all (fun pk =>
    pk.2.all (fun k =>
      match s.entries.get k with
      | some e => e.path == pk.1
      | none => false))

/-- The trace of entries visited ("dropped") by the removal walk, with the
entry value observed at visit time: the spec-side characterisation of the
set of dropped entries, mirroring `dropGo`'s traversal. -/
def dropGoT : Nat → Disk → FileSystemS → DropCall → List (EntryKey × Entry)
  | 0, _, _, _ => []
  | n + 1, d, s, .one k =>
    let s1 := unregister s k
    match s1.entries.get k with
    | none => []
    | some e =>
      (k, e) ::
        (dropGoT n d s1 (.many e.childValues) ++
          dropGoT n d (dropGo n d s1 (.many e.childValues)).1 (.links (dropLinksOf d s1 e)))
  | _ + 1, _, _, .many [] => []
  | n + 1, d, s, .many (k :: ks) =>
    dropGoT n d s (.one k) ++ dropGoT n d (dropGo n d s (.one k)).1 (.many ks)
  | _ + 1, _, _, .links [] => []
  | n + 1, d, s, .links (p :: ps) =>
    dropGoT n d s (.rem p) ++ dropGoT n d (dropGo n d s (.rem p)).1 (.links ps)
  | n + 1, d, s, .rem p =>
    match lookup s p with
    | none => []
    | some k =>
      match removeDetach s p with
      | .error _ => []
      | .ok s2 => dropGoT n d s2 (.one k)

/-- The `Delete` event a dropped entry contributes: none for a `Dir`,
`Delete(key)` for `File` and `Symlink`. -/
def deleteForDropped (q : EntryKey × Entry) : Option Event :=
  match q.2 with
  | .Dir _ _ _ _ => none
  | _ => some (.Delete q.1)

/-! ## Concrete states used by witnesses and counterexamples -/

/-- An empty disk. -/
def dEmpty : Disk := ⟨[]⟩

/-- A disk with a root directory `r` containing one subdirectory `r/d`. -/
def diskC : Disk := ⟨[(["r"], .MDir [["r", "d"]]), (["r", "d"], .MDir [])]⟩

/-- Master rules that include everything (the tests' `**`). -/
def rulesAll : Rules := ⟨[fun _ => true], []⟩

/-- The cache bootstrapped over `diskC` with root `r`. -/
def fsC : FileSystemS := FileSystem.new 8 diskC [["r"]] rulesAll

/-- `fsC` after processing the raw event `Rename(r/d, r/e)`. -/
def fsC3after : FileSystemS := (process 8 diskC fsC (.Rename ["r", "d"] ["r", "e"])).1

/-- Rules matching exactly the path `r`. -/
def rulesR : Rules := ⟨[fun p => p == (["r"] : Path)], []⟩

/-- A hand-built cache state holding only the initial root `r`, whose rules
admit `r` and nothing else. -/
def sC1 : FileSystemS :=
  { watcher := [["r"]]
    entries := ⟨2, [(1, .Dir "r" none [] ["r"])]⟩
    root := 0
    symlinks := []
    watch_descriptors := [(["r"], [1])]
    master_rules := rulesR
    initial_dirs := [["r"]]
    initial_dir_rules := rulesR
    initial_events := [] }

/-- The same shape of state, dedicated to the `Remove`-suppression witness. -/
def sC9 : FileSystemS :=
  { watcher := [["r"]]
    entries := ⟨2, [(1, .Dir "r" none [] ["r"])]⟩
    root := 0
    symlinks := []
    watch_descriptors := [(["r"], [1])]
    master_rules := rulesAll
    initial_dirs := [["r"]]
    initial_dir_rules := rulesR
    initial_events := [] }

/-! ## Theorems -/

/-- The `from_ok` computed by `process` on a `Rename` equals the claims'
`from_ok` (source path indexed and its first entry's path passes). -/
theorem fromOk_code_eq_spec (d : Disk) (s : FileSystemS) (f : Path) :
    (match getFirstEntry s f with
      | .ok k => entryPathPasses d s k
      | .error _ => false) = fromOkSpec d s f := by
  unfold getFirstEntry fromOkSpec
  cases h : alistGet s.watch_descriptors f with
  | none => simp
  | some ks => cases ks <;> simp

/-- Claim C8: for every rule set and path, `passes` is `Ok` iff `included`
and `excluded` are both `Ok`; it is `NotIncluded` exactly when no inclusion
rule matches; and it is `Excluded` exactly when some inclusion rule and some
exclusion rule both match. -/
theorem C8_rules_passes (r : Rules) (p : Path) :
    (r.passes p = Status.Ok ↔ (r.included p = Status.Ok ∧ r.excluded p = Status.Ok))
    ∧ (r.passes p = Status.NotIncluded ↔ ¬ (r.inclusion.any (fun m => m p) = true))
    ∧ (r.passes p = Status.Excluded ↔
        (r.inclusion.any (fun m => m p) = true ∧ r.exclusion.any (fun m => m p) = true)) := by
  by_cases hi : r.inclusion.any (fun m => m p) = true
  · by_cases he : r.exclusion.any (fun m => m p) = true
    · simp [Rules.passes, Rules.included, Rules.excluded, hi, he]
    · simp [Rules.passes, Rules.included, Rules.excluded, hi, he]
  · simp [Rules.passes, Rules.included, Rules.excluded, hi]

/-- Claim C5 (code bug): the claim says an `Error` raw event of kind
Overflow terminates the process while other kinds only log; in the code the
raw error type has no Overflow kind at all and `process` returns `Ok` for
every `Error` event, leaving the state unchanged, emitting nothing and
never being fatal — the `WatchOverflow` panic branch is unreachable. -/
theorem C5_error_event_noop (n : Nat) (d : Disk) (s : FileSystemS)
    (e : NotifyError) (p : Option Path) :
    process n d s (.Error e p) = (s, [], false) := rfl

/-- Claim C6 (code bug): the claim says `Rescan` rebuilds the mirrored
tree; in the code `Rescan` is matched by the catch-all TODO arm of
`process` and does nothing: the state is unchanged, no event is emitted,
nothing is dropped and no re-bootstrap happens. -/
theorem C6_rescan_noop (n : Nat) (d : Disk) (s : FileSystemS) :
    process n d s .Rescan = (s, [], false) := rfl

/-- Claim C10: `process_modify` never mutates the cache state: when the
path is indexed it returns the state unchanged together with one `Write`
per indexed key in sequence order; when it is not indexed it returns the
untracked-watch error and no event.  At the `process` level the state is
likewise unchanged. -/
theorem C10_modify_frame (n : Nat) (d : Disk) (s : FileSystemS) (p : Path) :
    processModify s p =
      (match alistGet s.watch_descriptors p with
        | some ks => (s, ks.map Event.Write, Except.ok ())
        | none => (s, [], Except.error (FsError.WatchEvent p)))
    ∧ (process n d s (.Write p)).1 = s := by
  constructor
  · rfl
  · cases h : alistGet s.watch_descriptors p <;>
      simp [process, processInner, finishP, processModify, h]

/-- Claim C9: a `Remove(p)` raw event whose looked-up first entry has a
stored path equal to one of the configured initial roots leaves the entire
cache state unchanged, emits no event and is not fatal. -/
theorem C9_root_remove_suppressed (n : Nat) (d : Disk) (s : FileSystemS)
    (p : Path) (k : EntryKey) (e : Entry)
    (h1 : getFirstEntry s p = .ok k)
    (h2 : s.entries.get k = some e)
    (h3 : s.initial_dirs.any (fun dir => dir == e.path) = true) :
    process n d s (.Remove p) = (s, [], false) := by
  simp [process, processInner, processDelete, finishP, h1, h2, h3]

/-- Witness for C9 at a concrete bootstrapped-root state. -/
theorem C9_root_remove_suppressed_witness :
    process 3 dEmpty sC9 (.Remove ["r"]) = (sC9, [], false) :=
  C9_root_remove_suppressed 3 dEmpty sC9 ["r"] 1 (.Dir "r" none [] ["r"]) rfl rfl rfl

/-- Claim C2 (code bug): after bootstrapping over a root `r` that contains
a subdirectory `d`, the root `Dir` (key 1) holds the child binding
`("d", 2)`, yet the entry stored under key 2 has `parent = none` instead of
the root's key — `register_as_child` attaches the child to the parent's
children map but never sets the child's `parent` field, so the claimed
invariant fails in a reachable state. -/
theorem C2_children_parent_violation :
    (match fsC.entries.get 1 with | some e => e.childrenOpt | none => none)
      = some [("d", 2)]
    ∧ (match fsC.entries.get 2 with | some e => some e.parentOpt | none => none)
      = some none
    ∧ inv2holds fsC = false :=
  ⟨rfl, rfl, rfl⟩

/-- Claim C3 (code bug): the watch-descriptor invariant holds after
bootstrap, but processing `Rename(r/d, r/e)` leaves the stale index mapping
`r/d ↦ [2]` in place (the code only removes the *destination's* previous
mapping) while entry 2's stored path has become `r/e`, so the claimed
invariant fails in a reachable state. -/
theorem C3_wd_index_violation :
    inv3holds fsC = true
    ∧ alistGet fsC3after.watch_descriptors ["r", "d"] = some [2]
    ∧ (match fsC3after.entries.get 2 with | some e => some e.path | none => none)
      = some ["r", "e"]
    ∧ inv3holds fsC3after = false :=
  ⟨rfl, rfl, rfl, rfl⟩

/-- Counterexample to claim C1 as stated: in a state where the tracked
source path `r` is a configured initial root, `from_ok` holds and `to_ok`
fails, yet `process` does not perform `remove(f)`: it leaves the
watch-descriptor index (and all state) unchanged and emits nothing, whereas
`remove(f)` would drop the root's index entry. -/
theorem C1_counterexample :
    fromOkSpec dEmpty sC1 (["r"] : Path) = true
    ∧ toOkSpec dEmpty sC1 (["t"] : Path) = false
    ∧ (process 5 dEmpty sC1 (.Rename ["r"] ["t"])).1.watch_descriptors = [(["r"], [1])]
    ∧ (process 5 dEmpty sC1 (.Rename ["r"] ["t"])).2.1 = []
    ∧ (removeP 5 dEmpty sC1 ["r"]).1.watch_descriptors = [] :=
  ⟨rfl, rfl, rfl, rfl, rfl⟩

/-- The events of the removal walk are exactly the `Delete`s of the visited
(`dropped`) `File` and `Symlink` entries, in traversal order. -/
theorem dropGo_events_trace (n : Nat) (d : Disk) :
    ∀ c s, (dropGo n d s c).2.1 = (dropGoT n d s c).filterMap deleteForDropped := by
  induction n with
  | zero => intro c s; cases c <;> simp [dropGo, dropGoT]
  | succ n ih =>
    intro c s
    cases c with
    | one k =>
      cases h : (unregister s k).entries.get k with
      | none => simp [dropGo, dropGoT, h]
      | some e =>
        cases e <;>
          simp [dropGo, dropGoT, h, dropSelfEvents, deleteForDropped,
            List.filterMap_append, ih]
    | many ks =>
      cases ks with
      | nil => simp [dropGo, dropGoT]
      | cons k ks => simp [dropGo, dropGoT, List.filterMap_append, ih]
    | links ps =>
      cases ps with
      | nil => simp [dropGo, dropGoT]
      | cons p ps => simp [dropGo, dropGoT, List.filterMap_append, ih]
    | rem p =>
      cases hl : lookup s p with
      | none => simp [dropGo, dropGoT, hl]
      | some k =>
        cases hd : removeDetach s p with
        | error err => simp [dropGo, dropGoT, hl, hd]
        | ok s2 => simp [dropGo, dropGoT, hl, hd, ih]

/-- Claim C4: for every `drop_entry` call (including the recursive removal
of a whole subtree and the scheduled symlink targets), the emitted events
are exactly one `Delete(key)` per dropped `File` or `Symlink` entry, in
order; dropped `Dir` entries contribute no `Delete`. -/
theorem C4_drop_delete_exact (n : Nat) (d : Disk) (s : FileSystemS) (k : EntryKey) :
    (dropGo n d s (.one k)).2.1 =
      (dropGoT n d s (.one k)).filterMap deleteForDropped :=
  dropGo_events_trace n d (.one k) s

/-- Every event emitted by the insertion walk is a `New`. -/
theorem insertGo_events_new (n : Nat) (d : Disk) :
    ∀ c s, ((insertGo n d s c).2.1).all isNewEv = true := by
  induction n with
  | zero => intro c s; cases c <;> simp [insertGo]
  | succ n ih =>
    intro c s
    cases c with
    | imany ps =>
      cases ps with
      | nil => simp [insertGo]
      | cons p ps => simp [insertGo, List.all_append, ih]
    | ione p =>
      simp only [insertGo]
      repeat' split
      all_goals simp [isNewEv, List.all_append, ih]

/-- Every event produced by the bootstrap loop is a `New`. -/
theorem bootstrapDirs_events_new (n : Nat) (d : Disk) :
    ∀ dirs s, ((bootstrapDirs n d s dirs).2).all isNewEv = true := by
  intro dirs
  induction dirs with
  | nil => intro s; simp [bootstrapDirs]
  | cons dir rest ih =>
    intro s
    simp [bootstrapDirs, insertP, List.all_append, insertGo_events_new, ih]

/-- On a list of `New` events, the bootstrap rewrite to `Initialize` is the
keywise map. -/
theorem filterMap_new_init :
    ∀ l : List Event, l.all isNewEv = true →
      l.filterMap (fun e =>
          match e with
          | .New k => some (Event.Initialize k)
          | _ => none)
        = l.map (fun e => Event.Initialize e.key) := by
  intro l
  induction l with
  | nil => intro _; rfl
  | cons e rest ih =>
    intro h
    rw [List.all_cons, Bool.and_eq_true] at h
    obtain ⟨h1, h2⟩ := h
    cases e <;> simp [isNewEv, Event.key] at h1 ⊢
    exact ih h2

/-- A keywise `Initialize` map consists of `Initialize` events only. -/
theorem map_init_all (l : List Event) :
    (l.map (fun e => Event.Initialize e.key)).all isInitEv = true := by
  induction l with
  | nil => rfl
  | cons e rest ih => simp [isInitEv, ih]

/-- Claim C7: the event stream yields every buffered bootstrap event, in
insertion order, before any event produced by a live raw event; the
buffered events are the bootstrap's `New` events rewritten keywise to
`Initialize`; the bootstrap emits only `New` events; hence every buffered
event is an `Initialize` and no `New` precedes the first live raw event. -/
theorem C7_stream_initial_order (nb nl : Nat) (d : Disk) (dirs : List Path)
    (rules : Rules) (raws : List WatchEvent) :
    streamEvents nl d (FileSystem.new nb d dirs rules) raws
      = (FileSystem.new nb d dirs rules).initial_events
        ++ (runEvents nl d
              { FileSystem.new nb d dirs rules with initial_events := [] } raws).2
    ∧ (FileSystem.new nb d dirs rules).initial_events
      = (bootstrapRun nb d dirs rules).2.map (fun e => Event.Initialize e.key)
    ∧ (bootstrapRun nb d dirs rules).2.all isNewEv = true
    ∧ (FileSystem.new nb d dirs rules).initial_events.all isInitEv = true := by
  have hnew : (bootstrapRun nb d dirs rules).2.all isNewEv = true := by
    unfold bootstrapRun
    exact bootstrapDirs_events_new nb d dirs _
  have hinit : (FileSystem.new nb d dirs rules).initial_events
      = (bootstrapRun nb d dirs rules).2.map (fun e => Event.Initialize e.key) :=
    filterMap_new_init _ hnew
  refine ⟨rfl, hinit, hnew, ?_⟩
  rw [hinit]
  exact map_init_all _

/-- Amended claim C1: for a raw `Rename(f,t)` event, with `from_ok` and
`to_ok` as in the claim: if both hold, `process` performs
`process_rename(f,t)`; if only `to_ok`, it performs `insert(t)`; if only
`from_ok`, it performs the `Remove`-path action on `f`: removal of the
first indexed entry's stored path, unless that path equals one of the
configured initial roots, in which case the state is unchanged and no event
is emitted; if neither holds, the state is unchanged and no event is
emitted. -/
theorem C1_amended_dispatch (n : Nat) (d : Disk) (s : FileSystemS) (f t : Path) :
    process n d s (.Rename f t) =
      (if toOkSpec d s t = true then
        (if fromOkSpec d s f = true then finishP (processRename n d s f t)
         else finishP (processCreate n d s t))
       else if fromOkSpec d s f = true then
        finishP
          (match getFirstEntry s f with
            | .error e => (s, [], .error e)
            | .ok k =>
              match s.entries.get k with
              | none => (s, [], .error .Lookup)
              | some e =>
                if s.initial_dirs.any (fun dir => dir == e.path) then (s, [], .ok ())
                else removeP n d s e.path)
       else (s, [], false)) := by
  have hf := fromOk_code_eq_spec d s f
  by_cases ht : passes d s t = true <;>
    by_cases hfr : fromOkSpec d s f = true <;>
      simp [process, processInner, processDelete, toOkSpec, finishP, hf, ht, hfr]

end LogdnaFs
